import Mathlib

/-!
Shallow embedding of the agent-chat server (`server.js`): SQLite-backed
message log, agent directory, rate limiter, ingestion handlers, queries,
and the polling drain loop used by clients.  Timestamps are modelled as
the strings the two clocks of the source produce: SQLite `datetime('now')`
(`YYYY-MM-DD HH:MM:SS`) and JavaScript `new Date().toISOString()`
(`YYYY-MM-DDTHH:MM:SS.mmmZ`), compared lexicographically as SQLite's
TEXT collation does.
-/

set_option linter.unusedVariables false

/-- A JavaScript value as it can appear in a JSON request body field.
Only the shapes the handlers inspect are distinguished. -/
inductive JSValue where
  | undef : JSValue
  | jsnull : JSValue
  | str : String → JSValue
  | num : Int → JSValue
  | bool : Bool → JSValue
  | arr : JSValue
  | obj : JSValue
deriving DecidableEq, Repr

/-- JavaScript falsiness of a body field (`!v`). -/
def jsFalsy : JSValue → Bool
  | .undef => true
  | .jsnull => true
  | .str s => s == ""
  | .num n => n == 0
  | .bool b => !b
  | .arr => false
  | .obj => false

/-- `typeof v === 'string'`. -/
def jsIsString : JSValue → Bool
  | .str _ => true
  | _ => false

/-- The string payload of a string value (only consulted after the
`typeof` guard has passed). -/
def jsStr : JSValue → String
  | .str s => s
  | _ => ""

/-- Drop leading whitespace characters. -/
def trimLeftChars : List Char → List Char
  | [] => []
  | c :: cs => if c.isWhitespace then trimLeftChars cs else c :: cs

/-- JavaScript `String.prototype.trim()`: strip whitespace from both
ends (the whitespace classes relevant here are space, tab, CR, LF). -/
def jsTrim (s : String) : String :=
  ⟨(trimLeftChars ((trimLeftChars s.data).reverse)).reverse⟩

/-- Lexicographic (byte-wise) comparison of character lists — SQLite's
BINARY TEXT collation and JavaScript's `<` on the ASCII timestamp
strings used here. -/
def strLtb : List Char → List Char → Bool
  | [], [] => false
  | [], _ :: _ => true
  | _ :: _, [] => false
  | a :: as, b :: bs =>
    if a.toNat < b.toNat then true
    else if b.toNat < a.toNat then false
    else strLtb as bs

/-- String strict order used by `timestamp > ?` in SQL and
`msg.timestamp > lastTimestamp` in the client. -/
def strLt (a b : String) : Bool := strLtb a.data b.data

/-- Non-strict companion of `strLt`. -/
def strLe (a b : String) : Bool := !(strLt b a)

/-- The validation guard the server applies to `content` (message send)
and `name` (registration):
`!v || typeof v !== 'string' || v.trim().length === 0`. -/
def textRejected (v : JSValue) : Bool :=
  jsFalsy v ||
    match v with
    | .str s => jsTrim s == ""
    | _ => true

/-- A wall-clock instant, with the calendar fields the two string
renderings need. -/
structure DateTime where
  year : Nat
  month : Nat
  day : Nat
  hour : Nat
  minute : Nat
  second : Nat
  millis : Nat
deriving DecidableEq, Repr

/-- Decimal digit character of `n % 10`. -/
def dd (n : Nat) : Char := Nat.digitChar (n % 10)

/-- SQLite `datetime('now')`: the 19-character `YYYY-MM-DD HH:MM:SS`
rendering that the `DEFAULT (datetime('now'))` columns store. -/
def sqliteDatetime (t : DateTime) : String :=
  ⟨[dd (t.year / 1000), dd (t.year / 100), dd (t.year / 10), dd t.year, '-',
    dd (t.month / 10), dd t.month, '-', dd (t.day / 10), dd t.day, ' ',
    dd (t.hour / 10), dd t.hour, ':', dd (t.minute / 10), dd t.minute, ':',
    dd (t.second / 10), dd t.second]⟩

/-- JavaScript `new Date().toISOString()`: the 24-character
`YYYY-MM-DDTHH:MM:SS.mmmZ` rendering used for the broadcast payload. -/
def toISOString (t : DateTime) : String :=
  ⟨[dd (t.year / 1000), dd (t.year / 100), dd (t.year / 10), dd t.year, '-',
    dd (t.month / 10), dd t.month, '-', dd (t.day / 10), dd t.day, 'T',
    dd (t.hour / 10), dd t.hour, ':', dd (t.minute / 10), dd t.minute, ':',
    dd (t.second / 10), dd t.second, '.',
    dd (t.millis / 100), dd (t.millis / 10), dd t.millis, 'Z']⟩

/-- A row of the `agents` table. -/
structure Agent where
  id : String
  name : String
  description : String
  apiKey : String
  createdAt : String
  lastSeen : String
deriving DecidableEq, Repr

/-- A row of the `messages` table (also the wire shape of a message). -/
structure Msg where
  id : Nat
  agentId : String
  agentName : String
  content : String
  room : String
  timestamp : String
deriving DecidableEq, Repr

/-- Server store state: the two tables plus the AUTOINCREMENT counter
for `messages.id`.  The in-memory `rateLimits` map is NOT part of this
state because no route handler in the source ever reads or writes it
(see `checkRateLimit` below). -/
structure ServerState where
  agents : List Agent
  messages : List Msg
  nextId : Nat
deriving DecidableEq, Repr

/-- Fresh database: empty tables, AUTOINCREMENT starts at 1. -/
def initState : ServerState := ⟨[], [], 1⟩

/-- `stmts.getAgentByKey`: `SELECT * FROM agents WHERE apiKey = ?`. -/
def getAgentByKey (st : ServerState) (k : String) : Option Agent :=
  st.agents.find? (fun a => a.apiKey == k)

/-- `stmts.updateLastSeen`:
`UPDATE agents SET lastSeen = datetime('now') WHERE id = ?`. -/
def updateLastSeen (st : ServerState) (aid : String) (ts : String) : ServerState :=
  { st with
    agents := st.agents.map (fun a => if a.id == aid then { a with lastSeen := ts } else a) }

/-- `checkRateLimit`: consults and updates the in-memory `rateLimits`
map (agentId → last admission in ms of `Date.now()`); admits iff at
least `RATE_LIMIT_MS = 30000` ms have passed since the last admission.
Defined exactly as in the source — note that no route handler calls it. -/
def checkRateLimit (rl : List (String × Nat)) (agentId : String) (now : Nat) :
    Bool × List (String × Nat) :=
  let last := ((rl.find? (fun p => p.1 == agentId)).map Prod.snd).getD 0
  if now - last < 30000 then
    (false, rl)
  else
    (true, (agentId, now) :: rl.filter (fun p => !(p.1 == agentId)))

/-- Outcome of `POST /api/message`: HTTP status plus, on success, the
message id returned to the caller and the `new_message` payload pushed
on the WebSocket fan-out. -/
inductive SendResult where
  | unauthorized : SendResult
  | forbidden : SendResult
  | badRequest : SendResult
  | ok : Nat → Msg → SendResult
deriving DecidableEq, Repr

/-- Whether a send succeeded. -/
def SendResult.isOk : SendResult → Bool
  | .ok _ _ => true
  | _ => false

/-- The broadcast payload of a successful send. -/
def SendResult.broadcast : SendResult → Option Msg
  | .ok _ m => some m
  | _ => none

/-- Body of a `POST /api/message` request plus its `X-Agent-Key` header
(`none` = header absent).  `room` is modelled as absent-or-string, the
only shapes exercised by the contract. -/
structure MessageRequest where
  apiKey : Option String
  content : JSValue
  room : Option String
deriving DecidableEq, Repr

/-- The handler's room defaulting: `(room || 'general').trim()`.
An absent or empty (falsy) `room` becomes `'general'`; any other string
is kept and trimmed afterwards. -/
def targetRoom (r : Option String) : String :=
  jsTrim
    (match r with
     | none => "general"
     | some s => if s == "" then "general" else s)

/-- `POST /api/message`: the `authenticate` middleware (401 on missing
key, 403 on unknown key, `updateLastSeen` side effect on success)
followed by the handler body: content guard (400), room defaulting
`(room || 'general').trim()`, `stmts.insertMessage` (the log assigns
`id` = AUTOINCREMENT counter and `timestamp` = `datetime('now')`),
and the broadcast object, whose `timestamp` the handler builds itself
with `new Date().toISOString()`. -/
def handleMessage (st : ServerState) (now : DateTime) (req : MessageRequest) :
    SendResult × ServerState :=
  match req.apiKey with
  | none => (.unauthorized, st)
  | some k =>
    if k == "" then (.unauthorized, st)
    else
      match getAgentByKey st k with
      | none => (.forbidden, st)
      | some agent =>
        let st1 := updateLastSeen st agent.id (sqliteDatetime now)
        if textRejected req.content then (.badRequest, st1)
        else
          let content := jsTrim (jsStr req.content)
          let mrow : Msg :=
            { id := st1.nextId, agentId := agent.id, agentName := agent.name,
              content := content, room := targetRoom req.room,
              timestamp := sqliteDatetime now }
          let bmsg : Msg := { mrow with timestamp := toISOString now }
          (.ok mrow.id bmsg,
           { st1 with messages := st1.messages ++ [mrow], nextId := st1.nextId + 1 })

/-- Outcome of `POST /api/register`. -/
inductive RegisterResult where
  | badRequest : RegisterResult
  | storeError : RegisterResult
  | ok : String → String → String → RegisterResult
deriving DecidableEq, Repr

/-- `POST /api/register`: name guard (400), then `stmts.insertAgent`
with the freshly generated uuid id and `ak_`-prefixed key (both
supplied here as parameters since uuid generation is external
randomness); a UNIQUE/PRIMARY KEY collision surfaces as the catch
branch (500). -/
def handleRegister (st : ServerState) (now : DateTime) (name : JSValue)
    (description : Option String) (freshId freshKey : String) :
    RegisterResult × ServerState :=
  if textRejected name then (.badRequest, st)
  else
    let nm := jsTrim (jsStr name)
    let desc := jsTrim (description.getD "")
    if st.agents.any (fun a => a.apiKey == freshKey || a.id == freshId) then
      (.storeError, st)
    else
      let a : Agent :=
        { id := freshId, name := nm, description := desc, apiKey := freshKey,
          createdAt := sqliteDatetime now, lastSeen := sqliteDatetime now }
      (.ok freshId freshKey nm, { st with agents := st.agents ++ [a] })

/-- Stable insertion into a timestamp-ascending list: an element keeps
its place before later elements with an equal timestamp, matching the
`(room, timestamp)` index order (rowid breaks ties). -/
def insertByTs (m : Msg) : List Msg → List Msg
  | [] => [m]
  | y :: ys => if strLe m.timestamp y.timestamp then m :: y :: ys else y :: insertByTs m ys

/-- `ORDER BY timestamp ASC` as a stable sort. -/
def sortByTs : List Msg → List Msg
  | [] => []
  | x :: xs => insertByTs x (sortByTs xs)

/-- `stmts.getMessagesSince`:
`SELECT * FROM messages WHERE room = ? AND timestamp > ? ORDER BY timestamp ASC LIMIT 200`. -/
def getMessagesSince (st : ServerState) (room since : String) : List Msg :=
  (sortByTs (st.messages.filter
    (fun m => m.room == room && strLt since m.timestamp))).take 200

/-- `GET /api/messages` without `since`:
`stmts.getAllMessages.all(targetRoom).reverse()`, i.e.
`SELECT * FROM messages WHERE room = ? ORDER BY timestamp DESC LIMIT 100`
followed by the handler's `.reverse()`. -/
def getAllMessagesAsc (st : ServerState) (room : String) : List Msg :=
  (((sortByTs (st.messages.filter (fun m => m.room == room))).reverse).take 100).reverse

/-- Insert a room name into a sorted duplicate-free list. -/
def insertRoom (r : String) : List String → List String
  | [] => [r]
  | x :: xs =>
    if r == x then x :: xs
    else if strLt r x then r :: x :: xs
    else x :: insertRoom r xs

/-- `SELECT DISTINCT room FROM messages ORDER BY room`. -/
def distinctRooms (st : ServerState) : List String :=
  (st.messages.map (fun m => m.room)).foldr insertRoom []

/-- `GET /api/rooms`: the distinct rooms, with `'general'` prepended by
`rooms.unshift('general')` when absent. -/
def getRooms (st : ServerState) : List String :=
  let rooms := distinctRooms st
  if rooms.contains "general" then rooms else "general" :: rooms

/-- An externally observable write event: each carries the wall-clock
instant at which the server processed it. -/
inductive Event where
  | send : DateTime → MessageRequest → Event
  | register : DateTime → JSValue → Option String → String → String → Event

/-- The instant an event was processed. -/
def Event.time : Event → DateTime
  | .send now _ => now
  | .register now _ _ _ _ => now

/-- State transition of one event (responses discarded). -/
def stepEvent (st : ServerState) : Event → ServerState
  | .send now req => (handleMessage st now req).2
  | .register now name desc i k => (handleRegister st now name desc i k).2

/-- Run a trace of events. -/
def run (st : ServerState) (tr : List Event) : ServerState :=
  tr.foldl stepEvent st

/-- The wall clock never runs backwards: each event's
`datetime('now')` string is at least the floor, and the floor advances. -/
def clockMono : String → List Event → Bool
  | _, [] => true
  | floor, e :: es =>
    strLe floor (sqliteDatetime e.time) && clockMono (sqliteDatetime e.time) es

/-- The cursor a polling client keeps: the maximum of its previous
cursor and the timestamps of the messages it received
(`if (msg.timestamp > lastTimestamp) lastTimestamp = msg.timestamp`). -/
def maxTs (t : String) (l : List Msg) : String :=
  l.foldl (fun acc m => if strLt acc m.timestamp then m.timestamp else acc) t

/-- The claim's drain procedure: repeatedly `query(room, t)`, advancing
`t` to the maximum timestamp seen, until a round comes back empty (or
fuel runs out). -/
def drain (st : ServerState) (room : String) : Nat → String → List Msg
  | 0, _ => []
  | fuel + 1, t =>
    let res := getMessagesSince st room t
    if res.isEmpty then [] else res ++ drain st room fuel (maxTs t res)

/-- Store invariant carried along a clock-monotone trace: every stored
timestamp is at most the clock floor, ids strictly increase in
insertion order, timestamps are non-decreasing in insertion order, and
all ids are below the AUTOINCREMENT counter. -/
def StoreInv (floor : String) (st : ServerState) : Prop :=
  (∀ m ∈ st.messages, strLe m.timestamp floor = true) ∧
  List.Chain' (fun a b : Msg => a.id < b.id) st.messages ∧
  List.Chain' (fun a b : Msg => strLe a.timestamp b.timestamp = true) st.messages ∧
  (∀ m ∈ st.messages, m.id < st.nextId)

/-- A fixed instant used by concrete scenarios. -/
def dtA : DateTime := ⟨2026, 1, 15, 10, 0, 0, 0⟩

/-- One second after `dtA` (well inside the 30-second cooldown). -/
def dtB : DateTime := ⟨2026, 1, 15, 10, 0, 1, 0⟩

/-- A registered agent used by concrete scenarios. -/
def alice : Agent :=
  { id := "a1", name := "Alice", description := "", apiKey := "k1",
    createdAt := sqliteDatetime dtA, lastSeen := sqliteDatetime dtA }

/-- A store holding `alice` and no messages. -/
def stAlice : ServerState := ⟨[alice], [], 1⟩

/-- A reachable trace: registration followed by two sends from the
same agent processed in the same wall-clock second. -/
def trC4 : List Event :=
  [.register dtA (.str "Alice") none "a1" "k1",
   .send dtA ⟨some "k1", .str "one", none⟩,
   .send dtA ⟨some "k1", .str "two", none⟩]

/-- A reachable trace appending 250 messages to `general`, all in the
same wall-clock second (SQLite's `datetime('now')` has one-second
precision, so a burst of appends shares one timestamp). -/
def trC3 : List Event :=
  Event.register dtA (.str "Alice") none "a1" "k1" ::
    List.replicate 250 (.send dtB ⟨some "k1", .str "hi", none⟩)

/-- The i-th of 250 messages with strictly increasing timestamps
(one append per second). -/
def msgC3 (i : Nat) : Msg :=
  { id := i + 1, agentId := "a1", agentName := "Alice", content := "hi",
    room := "general",
    timestamp := sqliteDatetime ⟨2026, 1, 15, 10, i / 60, i % 60, 0⟩ }

/-- A store of 250 messages in `general`, one per second. -/
def stC3 : ServerState := ⟨[alice], (List.range 250).map msgC3, 251⟩

/-- Executable check that consecutive elements satisfy `f`. -/
def chainB (f : Msg → Msg → Bool) : List Msg → Bool
  | [] => true
  | [_] => true
  | a :: b :: rest => f a b && chainB f (b :: rest)

theorem charToNat_inj {a b : Char} (h : a.toNat = b.toNat) : a = b := by
  apply Char.ext
  apply UInt32.ext
  exact h

theorem strLtb_irrefl : ∀ l : List Char, strLtb l l = false
  | [] => rfl
  | c :: cs => by simp [strLtb, Nat.lt_irrefl, strLtb_irrefl cs]

theorem strLtb_trans : ∀ (l1 l2 l3 : List Char),
    strLtb l1 l2 = true → strLtb l2 l3 = true → strLtb l1 l3 = true := by
  intro l1
  induction l1 with
  | nil =>
    intro l2 l3 h1 h2
    cases l2 with
    | nil => simp [strLtb] at h1
    | cons b bs =>
      cases l3 with
      | nil => simp [strLtb] at h2
      | cons c cs => simp [strLtb]
  | cons a as ih =>
    intro l2 l3 h1 h2
    cases l2 with
    | nil => simp [strLtb] at h1
    | cons b bs =>
      cases l3 with
      | nil => simp [strLtb] at h2
      | cons c cs =>
        simp only [strLtb] at h1 h2 ⊢
        by_cases hab : a.toNat < b.toNat
        · by_cases hbc : b.toNat < c.toNat
          · simp [Nat.lt_trans hab hbc]
          · by_cases hcb : c.toNat < b.toNat
            · simp [hbc, hcb] at h2
            · have hac : a.toNat < c.toNat := by omega
              simp [hac]
        · by_cases hba : b.toNat < a.toNat
          · simp [hab, hba] at h1
          · simp only [hab, hba, if_false] at h1
            by_cases hbc : b.toNat < c.toNat
            · have hac : a.toNat < c.toNat := by omega
              simp [hac]
            · by_cases hcb : c.toNat < b.toNat
              · simp [hbc, hcb] at h2
              · simp only [hbc, hcb, if_false] at h2
                have hac : ¬ a.toNat < c.toNat := by omega
                have hca : ¬ c.toNat < a.toNat := by omega
                simp only [hac, hca, if_false]
                exact ih bs cs h1 h2

theorem strLtb_connex : ∀ (l1 l2 : List Char),
    strLtb l1 l2 = false → strLtb l2 l1 = false → l1 = l2 := by
  intro l1
  induction l1 with
  | nil =>
    intro l2 h1 h2
    cases l2 with
    | nil => rfl
    | cons b bs => simp [strLtb] at h1
  | cons a as ih =>
    intro l2 h1 h2
    cases l2 with
    | nil => simp [strLtb] at h2
    | cons b bs =>
      simp only [strLtb] at h1 h2
      by_cases hab : a.toNat < b.toNat
      · simp [hab] at h1
      · by_cases hba : b.toNat < a.toNat
        · simp [hab, hba] at h2
        · simp only [hab, hba, if_false] at h1 h2
          have : a = b := charToNat_inj (by omega)
          rw [this, ih bs h1 h2]

theorem strLt_irrefl (s : String) : strLt s s = false := strLtb_irrefl s.data

theorem strLt_trans {a b c : String}
    (h1 : strLt a b = true) (h2 : strLt b c = true) : strLt a c = true :=
  strLtb_trans a.data b.data c.data h1 h2

theorem strEq_of_not_lt {a b : String}
    (h1 : strLt a b = false) (h2 : strLt b a = false) : a = b := by
  have h := strLtb_connex a.data b.data h1 h2
  cases a with
  | mk da =>
    cases b with
    | mk db => exact congrArg String.mk h

theorem strLt_asymm {a b : String} (h : strLt a b = true) : strLt b a = false := by
  cases hba : strLt b a with
  | false => rfl
  | true => exact absurd (strLt_trans h hba) (by simp [strLt_irrefl])

theorem strLe_iff {a b : String} : strLe a b = true ↔ strLt b a = false := by
  simp [strLe, Bool.not_eq_true']

theorem strLe_refl (a : String) : strLe a a = true :=
  strLe_iff.2 (strLt_irrefl a)

theorem strLe_of_lt {a b : String} (h : strLt a b = true) : strLe a b = true :=
  strLe_iff.2 (strLt_asymm h)

theorem strLe_trans {a b c : String}
    (h1 : strLe a b = true) (h2 : strLe b c = true) : strLe a c = true := by
  rw [strLe_iff] at h1 h2 ⊢
  cases hca : strLt c a with
  | false => rfl
  | true =>
    cases hbc : strLt b c with
    | true => exact absurd (strLt_trans hbc hca) (by simp [h1])
    | false =>
      have hbceq : b = c := strEq_of_not_lt hbc h2
      subst hbceq
      exact absurd hca (by simp [h1])

theorem strLt_of_le_of_lt {a b c : String}
    (h1 : strLe a b = true) (h2 : strLt b c = true) : strLt a c = true := by
  rw [strLe_iff] at h1
  cases hab : strLt a b with
  | true => exact strLt_trans hab h2
  | false =>
    have : a = b := strEq_of_not_lt hab h1
    subst this
    exact h2

theorem strLt_of_lt_of_le {a b c : String}
    (h1 : strLt a b = true) (h2 : strLe b c = true) : strLt a c = true := by
  rw [strLe_iff] at h2
  cases hbc : strLt b c with
  | true => exact strLt_trans h1 hbc
  | false =>
    have : b = c := strEq_of_not_lt hbc h2
    subst this
    exact h1

theorem sortByTs_eq_self : ∀ {l : List Msg},
    List.Chain' (fun a b : Msg => strLe a.timestamp b.timestamp = true) l → sortByTs l = l
  | [], _ => rfl
  | [x], _ => rfl
  | x :: y :: ys, h => by
    rw [List.chain'_cons] at h
    show insertByTs x (sortByTs (y :: ys)) = x :: y :: ys
    rw [sortByTs_eq_self h.2]
    simp [insertByTs, h.1]

theorem chainB_sound {f : Msg → Msg → Bool} : ∀ {l : List Msg},
    chainB f l = true → List.Chain' (fun a b => f a b = true) l := by
  intro l
  induction l with
  | nil => intro h; exact List.chain'_nil
  | cons a rest ih =>
    cases rest with
    | nil => intro h; exact List.chain'_singleton a
    | cons b rest2 =>
      intro h
      rw [chainB, Bool.and_eq_true] at h
      rw [List.chain'_cons]
      exact ⟨h.1, ih h.2⟩

theorem storeInv_mono {f g : String} {st : ServerState}
    (h : StoreInv f st) (hfg : strLe f g = true) : StoreInv g st :=
  ⟨fun m hm => strLe_trans (h.1 m hm) hfg, h.2.1, h.2.2.1, h.2.2.2⟩

theorem handleMessage_state (st : ServerState) (now : DateTime) (req : MessageRequest) :
    ((handleMessage st now req).2.messages = st.messages ∧
     (handleMessage st now req).2.nextId = st.nextId) ∨
    (∃ mrow : Msg,
      (handleMessage st now req).2.messages = st.messages ++ [mrow] ∧
      mrow.timestamp = sqliteDatetime now ∧ mrow.id = st.nextId ∧
      (handleMessage st now req).2.nextId = st.nextId + 1) := by
  rcases req with ⟨ak, c, r⟩
  cases ak with
  | none => left; simp [handleMessage]
  | some k =>
    by_cases hk : (k == "") = true
    · left; simp [handleMessage, hk]
    · cases hag : getAgentByKey st k with
      | none => left; simp [handleMessage, hk, hag]
      | some agent =>
        by_cases hc : textRejected c = true
        · left; simp [handleMessage, hk, hag, hc, updateLastSeen]
        · right
          refine ⟨{ id := st.nextId, agentId := agent.id, agentName := agent.name,
                    content := jsTrim (jsStr c), room := targetRoom r,
                    timestamp := sqliteDatetime now }, ?_, rfl, rfl, ?_⟩
          · simp [handleMessage, hk, hag, hc, updateLastSeen]
          · simp [handleMessage, hk, hag, hc, updateLastSeen]

theorem handleRegister_state (st : ServerState) (now : DateTime) (name : JSValue)
    (desc : Option String) (i k : String) :
    (handleRegister st now name desc i k).2.messages = st.messages ∧
    (handleRegister st now name desc i k).2.nextId = st.nextId := by
  unfold handleRegister
  split
  · exact ⟨rfl, rfl⟩
  · split
    · exact ⟨rfl, rfl⟩
    · exact ⟨rfl, rfl⟩

theorem storeInv_step {floor : String} {st : ServerState} {e : Event}
    (hinv : StoreInv floor st) (hclk : strLe floor (sqliteDatetime e.time) = true) :
    StoreInv (sqliteDatetime e.time) (stepEvent st e) := by
  have hmono := storeInv_mono hinv hclk
  obtain ⟨h1, h2, h3, h4⟩ := hmono
  cases e with
  | register now name desc i k =>
    obtain ⟨hm, hn⟩ := handleRegister_state st now name desc i k
    exact ⟨by rw [stepEvent, hm]; exact h1,
           by rw [stepEvent, hm]; exact h2,
           by rw [stepEvent, hm]; exact h3,
           by rw [stepEvent, hm, hn]; exact h4⟩
  | send now req =>
    rcases handleMessage_state st now req with ⟨hm, hn⟩ | ⟨mrow, hm, hts, hid, hn⟩
    · exact ⟨by rw [stepEvent, hm]; exact h1,
             by rw [stepEvent, hm]; exact h2,
             by rw [stepEvent, hm]; exact h3,
             by rw [stepEvent, hm, hn]; exact h4⟩
    · refine ⟨?_, ?_, ?_, ?_⟩
      · rw [stepEvent, hm]
        intro m hmem
        rcases List.mem_append.1 hmem with h | h
        · exact h1 m h
        · simp only [List.mem_singleton] at h
          subst h
          rw [hts]
          exact strLe_refl _
      · rw [stepEvent, hm, List.chain'_append]
        refine ⟨h2, List.chain'_singleton _, ?_⟩
        intro x hx y hy
        simp only [List.head?_cons, Option.mem_def, Option.some.injEq] at hy
        subst hy
        have hxmem : x ∈ st.messages := List.mem_of_mem_getLast? hx
        rw [hid]
        exact h4 x hxmem
      · rw [stepEvent, hm, List.chain'_append]
        refine ⟨h3, List.chain'_singleton _, ?_⟩
        intro x hx y hy
        simp only [List.head?_cons, Option.mem_def, Option.some.injEq] at hy
        subst hy
        have hxmem : x ∈ st.messages := List.mem_of_mem_getLast? hx
        rw [hts]
        exact h1 x hxmem
      · rw [stepEvent, hm, hn]
        intro m hmem
        rcases List.mem_append.1 hmem with h | h
        · exact Nat.lt_trans (h4 m h) (Nat.lt_succ_self _)
        · simp only [List.mem_singleton] at h
          subst h
          rw [hid]
          exact Nat.lt_succ_self _

theorem clockMono_cons {floor : String} {e : Event} {es : List Event}
    (h : clockMono floor (e :: es) = true) :
    strLe floor (sqliteDatetime e.time) = true ∧
      clockMono (sqliteDatetime e.time) es = true := by
  rw [clockMono, Bool.and_eq_true] at h
  exact h

theorem run_inv : ∀ (tr : List Event) (st : ServerState) (floor : String),
    StoreInv floor st → clockMono floor tr = true →
    ∃ f2, StoreInv f2 (run st tr)
  | [], st, floor, hinv, _ => ⟨floor, hinv⟩
  | e :: es, st, floor, hinv, hclk => by
    obtain ⟨h1, h2⟩ := clockMono_cons hclk
    have hstep := storeInv_step hinv h1
    have : run st (e :: es) = run (stepEvent st e) es := rfl
    rw [this]
    exact run_inv es (stepEvent st e) (sqliteDatetime e.time) hstep h2

theorem storeInv_init (floor : String) : StoreInv floor initState :=
  ⟨fun m hm => absurd hm (List.not_mem_nil m), List.chain'_nil, List.chain'_nil,
   fun m hm => absurd hm (List.not_mem_nil m)⟩


theorem toISO_ne_sqlite (t : DateTime) : toISOString t ≠ sqliteDatetime t := by
  intro h
  have hlen := congrArg String.length h
  have h24 : (toISOString t).length = 24 := rfl
  have h19 : (sqliteDatetime t).length = 19 := rfl
  rw [h24, h19] at hlen
  exact absurd hlen (by decide)

/-- C7: a send with no `X-Agent-Key` header is answered 401 and a send
whose key matches no agent is answered 403; in both cases the store
(agents and messages alike) is returned unchanged. -/
theorem send_auth_rejection (st : ServerState) (now : DateTime) :
    (∀ (c : JSValue) (r : Option String),
      handleMessage st now ⟨none, c, r⟩ = (.unauthorized, st)) ∧
    (∀ (k : String) (c : JSValue) (r : Option String),
      (k == "") = false → getAgentByKey st k = none →
      handleMessage st now ⟨some k, c, r⟩ = (.forbidden, st)) := by
  constructor
  · intro c r
    rfl
  · intro k c r hk hag
    simp [handleMessage, hk, hag]

/-- Witness for C7 at a concrete store: both rejections happen and the
state is untouched. -/
theorem send_auth_rejection_witness :
    handleMessage stAlice dtA ⟨none, .str "hi", none⟩ = (.unauthorized, stAlice) ∧
    handleMessage stAlice dtA ⟨some "zz", .str "hi", none⟩ = (.forbidden, stAlice) :=
  ⟨(send_auth_rejection stAlice dtA).1 (.str "hi") none,
   (send_auth_rejection stAlice dtA).2 "zz" (.str "hi") none (by decide) (by decide)⟩

/-- C8: `GET /api/rooms` always lists `'general'`, and on a store with
no messages it returns exactly `["general"]`. -/
theorem rooms_always_include_general (st : ServerState) :
    "general" ∈ getRooms st ∧ (st.messages = [] → getRooms st = ["general"]) := by
  have hsplit : getRooms st =
      (if (distinctRooms st).contains "general" = true
       then distinctRooms st else "general" :: distinctRooms st) := rfl
  constructor
  · rw [hsplit]
    cases hc : (distinctRooms st).contains "general" with
    | true =>
      rw [if_pos rfl]
      exact List.mem_of_elem_eq_true hc
    | false =>
      rw [if_neg (by simp)]
      exact List.mem_cons_self _ _
  · intro h
    have hd : distinctRooms st = [] := by simp [distinctRooms, h]
    rw [hsplit, hd]
    simp

/-- Witness for C8 at the empty store. -/
theorem rooms_always_include_general_witness :
    "general" ∈ getRooms initState ∧ getRooms initState = ["general"] :=
  ⟨(rooms_always_include_general initState).1,
   (rooms_always_include_general initState).2 rfl⟩

/-- C9: an authenticated send whose `content` is not a string (absent,
number, boolean, array, object, null) is rejected 400 with no message
appended, and registration likewise rejects a non-string `name`
with 400, leaving the store unchanged. -/
theorem nonstring_input_rejected :
    (∀ (st : ServerState) (now : DateTime) (k : String) (a : Agent)
        (v : JSValue) (r : Option String),
      (k == "") = false → getAgentByKey st k = some a → jsIsString v = false →
      (handleMessage st now ⟨some k, v, r⟩).1 = .badRequest ∧
      (handleMessage st now ⟨some k, v, r⟩).2.messages = st.messages) ∧
    (∀ (st : ServerState) (now : DateTime) (v : JSValue) (d : Option String)
        (i kk : String),
      jsIsString v = false → handleRegister st now v d i kk = (.badRequest, st)) := by
  constructor
  · intro st now k a v r hk hag hv
    have hrej : textRejected v = true := by
      cases v <;> simp_all [textRejected, jsIsString, jsFalsy]
    constructor <;> simp [handleMessage, hk, hag, hrej, updateLastSeen]
  · intro st now v d i kk hv
    have hrej : textRejected v = true := by
      cases v <;> simp_all [textRejected, jsIsString, jsFalsy]
    simp [handleRegister, hrej]

/-- Witness for C9: a numeric `content` and a numeric `name` are both
rejected at a concrete store. -/
theorem nonstring_input_rejected_witness :
    ((handleMessage stAlice dtA ⟨some "k1", .num 7, none⟩).1 = .badRequest ∧
     (handleMessage stAlice dtA ⟨some "k1", .num 7, none⟩).2.messages = stAlice.messages) ∧
    handleRegister stAlice dtA (.num 7) none "x" "y" = (.badRequest, stAlice) :=
  ⟨nonstring_input_rejected.1 stAlice dtA "k1" alice (.num 7) none
      (by decide) (by decide) (by decide),
   nonstring_input_rejected.2 stAlice dtA (.num 7) none "x" "y" (by decide)⟩

/-- C10: a send carrying a valid key whose content fails validation is
rejected 400, yet the agent's `lastSeen` has already been updated by
the `authenticate` middleware; the update touches no other agent field,
no other agent, and no message. -/
theorem lastSeen_updated_despite_validation_failure (st : ServerState)
    (now : DateTime) (k : String) (a : Agent) (c : JSValue) (r : Option String)
    (hk : (k == "") = false) (hag : getAgentByKey st k = some a)
    (hc : textRejected c = true) :
    handleMessage st now ⟨some k, c, r⟩ =
      (.badRequest, updateLastSeen st a.id (sqliteDatetime now)) ∧
    (updateLastSeen st a.id (sqliteDatetime now)).messages = st.messages ∧
    (updateLastSeen st a.id (sqliteDatetime now)).agents =
      st.agents.map (fun ag =>
        if ag.id == a.id then { ag with lastSeen := sqliteDatetime now } else ag) := by
  refine ⟨?_, rfl, rfl⟩
  simp [handleMessage, hk, hag, hc]

/-- Witness for C10: empty content at a concrete store still bumps
`lastSeen` to the request instant. -/
theorem lastSeen_updated_despite_validation_failure_witness :
    handleMessage stAlice dtB ⟨some "k1", .str "", none⟩ =
      (.badRequest, updateLastSeen stAlice "a1" (sqliteDatetime dtB)) ∧
    (updateLastSeen stAlice "a1" (sqliteDatetime dtB)).messages = stAlice.messages ∧
    (updateLastSeen stAlice "a1" (sqliteDatetime dtB)).agents =
      stAlice.agents.map (fun ag =>
        if ag.id == "a1" then { ag with lastSeen := sqliteDatetime dtB } else ag) :=
  lastSeen_updated_despite_validation_failure stAlice dtB "k1" alice (.str "") none
    (by decide) (by decide) (by decide)

/-- C5 counterexample: a whitespace-only `room` does NOT default to
`'general'` — `(room || 'general')` sees a truthy string, and the
subsequent `.trim()` stores the empty-string room. -/
theorem room_whitespace_counterexample :
    ((handleMessage stAlice dtA ⟨some "k1", .str "hi", some " "⟩).2.messages.map
        (fun m => m.room)) = [""] ∧ ("" : String) ≠ "general" := by
  constructor
  · rfl
  · decide

/-- C5 (amended): a send whose `room` is absent or the empty string is
appended to `'general'`; whitespace-only rooms instead trim to the
empty-string room, because trimming happens after the default. -/
theorem room_default_on_absent_or_empty (st : ServerState) (now : DateTime)
    (k : String) (a : Agent) (c : String) (r : Option String)
    (hk : (k == "") = false) (hag : getAgentByKey st k = some a)
    (hc : textRejected (.str c) = false) (hr : r = none ∨ r = some "") :
    (handleMessage st now ⟨some k, .str c, r⟩).2.messages =
      st.messages ++ [{ id := st.nextId, agentId := a.id, agentName := a.name,
                        content := jsTrim c, room := "general",
                        timestamp := sqliteDatetime now }] := by
  have hg : targetRoom none = "general" := by decide
  have hg' : targetRoom (some "") = "general" := by decide
  rcases hr with hr | hr <;> subst hr <;>
    simp [handleMessage, hk, hag, hc, updateLastSeen, jsStr, hg, hg']

/-- Witness for C5's amended theorem: an absent room lands in
`general` at a concrete store. -/
theorem room_default_on_absent_or_empty_witness :
    (handleMessage stAlice dtA ⟨some "k1", .str "hi", none⟩).2.messages =
      stAlice.messages ++ [{ id := 1, agentId := "a1", agentName := "Alice",
                             content := "hi", room := "general",
                             timestamp := sqliteDatetime dtA }] :=
  room_default_on_absent_or_empty stAlice dtA "k1" alice "hi" none
    (by decide) (by decide) (by decide) (Or.inl rfl)

/-- C2 counterexample: on a successful send the persisted row's
timestamp is SQLite's `datetime('now')` while the broadcast
`new_message` payload carries the handler's own
`new Date().toISOString()` — two different strings for one message. -/
theorem broadcast_timestamp_counterexample :
    ((handleMessage stAlice dtA ⟨some "k1", .str "hi", none⟩).1.broadcast.map
        (fun m => m.timestamp)) = some "2026-01-15T10:00:00.000Z" ∧
    ((handleMessage stAlice dtA ⟨some "k1", .str "hi", none⟩).2.messages.map
        (fun m => m.timestamp)) = ["2026-01-15 10:00:00"] ∧
    ("2026-01-15T10:00:00.000Z" : String) ≠ "2026-01-15 10:00:00" := by
  refine ⟨rfl, rfl, by decide⟩

/-- C2 (amended): the broadcast payload agrees with the persisted row
on id, agent, content and room — the log assigns the id — but its
timestamp is produced by the Ingestion Service (`toISOString` of its
own clock) and always differs from the log-assigned persisted
timestamp. -/
theorem broadcast_uses_service_timestamp (st : ServerState) (now : DateTime)
    (k : String) (a : Agent) (c : String) (r : Option String)
    (hk : (k == "") = false) (hag : getAgentByKey st k = some a)
    (hc : textRejected (.str c) = false) :
    (handleMessage st now ⟨some k, .str c, r⟩).1 =
      .ok st.nextId
        { id := st.nextId, agentId := a.id, agentName := a.name,
          content := jsTrim c, room := targetRoom r,
          timestamp := toISOString now } ∧
    (handleMessage st now ⟨some k, .str c, r⟩).2.messages =
      st.messages ++ [{ id := st.nextId, agentId := a.id, agentName := a.name,
                        content := jsTrim c, room := targetRoom r,
                        timestamp := sqliteDatetime now }] ∧
    toISOString now ≠ sqliteDatetime now := by
  refine ⟨?_, ?_, toISO_ne_sqlite now⟩ <;>
    simp [handleMessage, hk, hag, hc, updateLastSeen, jsStr]

/-- Witness for C2's amended theorem at a concrete store and instant. -/
theorem broadcast_uses_service_timestamp_witness :
    (handleMessage stAlice dtA ⟨some "k1", .str "hi", none⟩).1 =
      .ok 1 { id := 1, agentId := "a1", agentName := "Alice", content := "hi",
              room := "general", timestamp := toISOString dtA } ∧
    (handleMessage stAlice dtA ⟨some "k1", .str "hi", none⟩).2.messages =
      stAlice.messages ++ [{ id := 1, agentId := "a1", agentName := "Alice",
                             content := "hi", room := "general",
                             timestamp := sqliteDatetime dtA }] ∧
    toISOString dtA ≠ sqliteDatetime dtA :=
  broadcast_uses_service_timestamp stAlice dtA "k1" alice "hi" none
    (by decide) (by decide) (by decide)

/-- C1: the rate limiter is never consulted on the send path — two
sends from the same agent one second apart are BOTH admitted and
appended, although `checkRateLimit` itself, had it been wired in as
its comment announces, would have rejected the second
(1000 ms < 30000 ms cooldown). -/
theorem rate_limit_unenforced :
    ((handleMessage ((handleMessage stAlice dtA ⟨some "k1", .str "one", none⟩).2) dtB
        ⟨some "k1", .str "two", none⟩).1.isOk = true) ∧
    ((handleMessage ((handleMessage stAlice dtA ⟨some "k1", .str "one", none⟩).2) dtB
        ⟨some "k1", .str "two", none⟩).2.messages.length = 2) ∧
    ((checkRateLimit [] "a1" 946944000000).1 = true) ∧
    ((checkRateLimit (checkRateLimit [] "a1" 946944000000).2 "a1" 946944001000).1
      = false) := by
  decide

/-- C4 counterexample: a clock-monotone reachable run in which two
distinct messages (ids 1 and 2) of the same room carry the same
timestamp — `(room, timestamp)` does not totally order a room, nor
does `timestamp` totally order the store. -/
theorem timestamp_collision_counterexample :
    clockMono (sqliteDatetime dtA) trC4 = true ∧
    (run initState trC4).messages.map (fun m => (m.id, m.room, m.timestamp)) =
      [(1, "general", "2026-01-15 10:00:00"),
       (2, "general", "2026-01-15 10:00:00")] := by
  decide

/-- C4 (amended): in every state reachable by a clock-monotone trace,
the log's ids strictly increase in insertion order — so ids, not
timestamps, totally order the store — while timestamps are
non-decreasing in that order (they may repeat within one second). -/
theorem reachable_ids_strict_ts_monotone (tr : List Event) (floor : String)
    (h : clockMono floor tr = true) :
    List.Pairwise (fun a b : Msg => a.id < b.id) (run initState tr).messages ∧
    List.Chain' (fun a b : Msg => strLe a.timestamp b.timestamp = true)
      (run initState tr).messages := by
  obtain ⟨f2, hinv⟩ := run_inv tr initState floor (storeInv_init floor) h
  constructor
  · haveI : IsTrans Msg (fun a b : Msg => a.id < b.id) :=
      ⟨fun a b c hab hbc => Nat.lt_trans hab hbc⟩
    exact (List.chain'_iff_pairwise).1 hinv.2.1
  · exact hinv.2.2.1

/-- Witness for C4's amended theorem on a concrete trace. -/
theorem reachable_ids_strict_ts_monotone_witness :
    List.Pairwise (fun a b : Msg => a.id < b.id) (run initState trC4).messages ∧
    List.Chain' (fun a b : Msg => strLe a.timestamp b.timestamp = true)
      (run initState trC4).messages :=
  reachable_ids_strict_ts_monotone trC4 (sqliteDatetime dtA) (by decide)

theorem chainTs_sublist {l l' : List Msg}
    (hsub : List.Sublist l' l)
    (h : List.Chain' (fun a b : Msg => strLe a.timestamp b.timestamp = true) l) :
    List.Chain' (fun a b : Msg => strLe a.timestamp b.timestamp = true) l' := by
  haveI : IsTrans Msg (fun a b : Msg => strLe a.timestamp b.timestamp = true) :=
    ⟨fun a b c => strLe_trans⟩
  rw [List.chain'_iff_pairwise] at h ⊢
  exact List.Pairwise.sublist hsub h

theorem chainTs_filter {l : List Msg}
    (h : List.Chain' (fun a b : Msg => strLe a.timestamp b.timestamp = true) l)
    (p : Msg → Bool) :
    List.Chain' (fun a b : Msg => strLe a.timestamp b.timestamp = true) (l.filter p) :=
  chainTs_sublist (List.filter_sublist l) h

theorem getMessagesSince_eq_take (st : ServerState) (room t : String)
    (h : List.Chain' (fun a b : Msg => strLe a.timestamp b.timestamp = true) st.messages) :
    getMessagesSince st room t =
      (st.messages.filter (fun m => m.room == room && strLt t m.timestamp)).take 200 := by
  unfold getMessagesSince
  rw [sortByTs_eq_self (chainTs_filter h _)]

theorem getAllMessagesAsc_eq_drop (st : ServerState) (room : String)
    (h : List.Chain' (fun a b : Msg => strLe a.timestamp b.timestamp = true) st.messages) :
    getAllMessagesAsc st room =
      (st.messages.filter (fun m => m.room == room)).drop
        ((st.messages.filter (fun m => m.room == room)).length - 100) := by
  unfold getAllMessagesAsc
  rw [sortByTs_eq_self (chainTs_filter h _), List.take_reverse, List.reverse_reverse]

theorem le_maxTs : ∀ (l : List Msg) (t : String), strLe t (maxTs t l) = true := by
  intro l
  induction l with
  | nil => intro t; exact strLe_refl t
  | cons x xs ih =>
    intro t
    show strLe t (maxTs (if strLt t x.timestamp then x.timestamp else t) xs) = true
    cases hc : strLt t x.timestamp with
    | true =>
      rw [if_pos rfl]
      exact strLe_trans (strLe_of_lt hc) (ih x.timestamp)
    | false =>
      rw [if_neg (by simp)]
      exact ih t

theorem mem_le_maxTs : ∀ (l : List Msg) (t : String) (m : Msg), m ∈ l →
    strLe m.timestamp (maxTs t l) = true := by
  intro l
  induction l with
  | nil => intro t m hm; cases hm
  | cons x xs ih =>
    intro t m hm
    show strLe m.timestamp (maxTs (if strLt t x.timestamp then x.timestamp else t) xs) = true
    rcases List.mem_cons.1 hm with rfl | hm'
    · have hfx : strLe m.timestamp (if strLt t m.timestamp then m.timestamp else t) = true := by
        cases hc : strLt t m.timestamp with
        | true =>
          rw [if_pos rfl]
          exact strLe_refl _
        | false =>
          rw [if_neg (by simp)]
          exact strLe_iff.2 hc
      exact strLe_trans hfx (le_maxTs xs _)
    · exact ih _ m hm'

theorem maxTs_mem_or_eq : ∀ (l : List Msg) (t : String),
    maxTs t l = t ∨ ∃ m ∈ l, maxTs t l = m.timestamp := by
  intro l
  induction l with
  | nil => intro t; exact Or.inl rfl
  | cons x xs ih =>
    intro t
    show maxTs (if strLt t x.timestamp then x.timestamp else t) xs = t ∨
      ∃ m ∈ x :: xs, maxTs (if strLt t x.timestamp then x.timestamp else t) xs = m.timestamp
    cases hc : strLt t x.timestamp with
    | true =>
      rw [if_pos rfl]
      rcases ih x.timestamp with h | ⟨m, hm, hmeq⟩
      · exact Or.inr ⟨x, List.mem_cons_self _ _, h⟩
      · exact Or.inr ⟨m, List.mem_cons_of_mem _ hm, hmeq⟩
    | false =>
      rw [if_neg (by simp)]
      rcases ih t with h | ⟨m, hm, hmeq⟩
      · exact Or.inl h
      · exact Or.inr ⟨m, List.mem_cons_of_mem _ hm, hmeq⟩

theorem roomFilter_comm (st : ServerState) (room t : String) :
    (st.messages.filter (fun m => m.room == room)).filter
        (fun m => strLt t m.timestamp) =
      st.messages.filter (fun m => m.room == room && strLt t m.timestamp) := by
  rw [List.filter_filter]
  exact List.filter_congr (fun a _ => by rw [Bool.and_comm])

theorem drain_collects (st : ServerState) (room : String)
    (hsort : List.Chain' (fun a b : Msg => strLe a.timestamp b.timestamp = true)
      st.messages)
    (hstrict : List.Pairwise (fun a b : Msg => strLt a.timestamp b.timestamp = true)
      (st.messages.filter (fun m => m.room == room))) :
    ∀ (fuel : Nat) (t : String),
      ((st.messages.filter (fun m => m.room == room)).filter
          (fun m => strLt t m.timestamp)).length ≤ 200 * fuel →
      drain st room fuel t =
        (st.messages.filter (fun m => m.room == room)).filter
          (fun m => strLt t m.timestamp) := by
  intro fuel
  induction fuel with
  | zero =>
    intro t hlen
    rw [drain]
    have h0 : ((st.messages.filter (fun m => m.room == room)).filter
        (fun m => strLt t m.timestamp)).length = 0 := Nat.le_zero.1 (by simpa using hlen)
    exact (List.eq_nil_of_length_eq_zero h0).symm
  | succ fuel ih =>
    intro t hlen
    have hq : getMessagesSince st room t =
        ((st.messages.filter (fun m => m.room == room)).filter
          (fun m => strLt t m.timestamp)).take 200 := by
      rw [getMessagesSince_eq_take st room t hsort, roomFilter_comm]
    cases hRe : (st.messages.filter (fun m => m.room == room)).filter
        (fun m => strLt t m.timestamp) with
    | nil =>
      rw [drain, hq, hRe]
      simp
    | cons x R' =>
      rw [drain, hq]
      have hne : (((st.messages.filter (fun m => m.room == room)).filter
          (fun m => strLt t m.timestamp)).take 200).isEmpty = false := by
        rw [hRe]
        rfl
      rw [hne]
      simp only [Bool.false_eq_true, if_false]
      rw [← hRe]
      generalize hR : (st.messages.filter (fun m => m.room == room)).filter
          (fun m => strLt t m.timestamp) = R at hRe hlen
      have hmemR : ∀ m ∈ R, strLt t m.timestamp = true := by
        intro m hm
        rw [← hR] at hm
        exact (List.mem_filter.1 hm).2
      have hRsub : List.Sublist R (st.messages.filter (fun m => m.room == room)) := by
        rw [← hR]
        exact List.filter_sublist _
      have hRstrict : List.Pairwise (fun a b : Msg => strLt a.timestamp b.timestamp = true)
          R := List.Pairwise.sublist hRsub hstrict
      have hfilterL : ∀ t2 : String, strLe t t2 = true →
          (∀ y ∈ R.drop 200, strLt t2 y.timestamp = true) →
          (∀ x ∈ R.take 200, strLt t2 x.timestamp = false) →
          (st.messages.filter (fun m => m.room == room)).filter
            (fun m => strLt t2 m.timestamp) = R.drop 200 := by
        intro t2 ht2 hdrop htake
        have h1 : (st.messages.filter (fun m => m.room == room)).filter
            (fun m => strLt t2 m.timestamp) =
            R.filter (fun m => strLt t2 m.timestamp) := by
          rw [← hR]
          conv_rhs => rw [List.filter_filter]
          refine List.filter_congr (fun a _ => ?_)
          cases hval : strLt t2 a.timestamp with
          | true => simp [strLt_of_le_of_lt ht2 hval]
          | false => simp
        rw [h1]
        conv_lhs => rw [← List.take_append_drop 200 R]
        rw [List.filter_append]
        rw [List.filter_eq_nil_iff.2 (fun a ha => by simp [htake a ha]),
          List.filter_eq_self.2 (fun a ha => hdrop a ha), List.nil_append]
      have htakele : ∀ x ∈ R.take 200,
          strLt (maxTs t (R.take 200)) x.timestamp = false := by
        intro x hx
        exact strLe_iff.1 (mem_le_maxTs _ t x hx)
      by_cases hlen200 : R.length ≤ 200
      · have htake : R.take 200 = R := List.take_of_length_le hlen200
        have hdropnil : R.drop 200 = [] := List.drop_eq_nil_of_le hlen200
        have hnext : (st.messages.filter (fun m => m.room == room)).filter
            (fun m => strLt (maxTs t (R.take 200)) m.timestamp) = [] := by
          rw [hfilterL (maxTs t (R.take 200)) (le_maxTs _ t) ?_ htakele, hdropnil]
          intro y hy
          rw [hdropnil] at hy
          cases hy
        have hdrain0 : drain st room fuel (maxTs t (R.take 200)) = [] := by
          rw [ih (maxTs t (R.take 200)) (by rw [hnext]; simp)]
          exact hnext
        rw [hdrain0, htake, List.append_nil]
      · push_neg at hlen200
        have hcross : ∀ x ∈ R.take 200, ∀ y ∈ R.drop 200,
            strLt x.timestamp y.timestamp = true := by
          have hp := hRstrict
          rw [← List.take_append_drop 200 R, List.pairwise_append] at hp
          exact hp.2.2
        have hdropgt : ∀ y ∈ R.drop 200, strLt (maxTs t (R.take 200)) y.timestamp = true := by
          intro y hy
          rcases maxTs_mem_or_eq (R.take 200) t with hmax | ⟨m, hm, hmeq⟩
          · rw [hmax]
            exact hmemR y (List.drop_subset 200 R hy)
          · rw [hmeq]
            exact hcross m hm y hy
        have hnext := hfilterL (maxTs t (R.take 200)) (le_maxTs _ t) hdropgt htakele
        have hlen' : ((st.messages.filter (fun m => m.room == room)).filter
            (fun m => strLt (maxTs t (R.take 200)) m.timestamp)).length ≤ 200 * fuel := by
          rw [hnext, List.length_drop]
          omega
        rw [ih (maxTs t (R.take 200)) hlen', hnext]
        exact List.take_append_drop 200 R

/-- C6: in every reachable store, the `since`-mode query returns
precisely the room's messages with timestamp strictly greater than the
cursor, in ascending timestamp order, capped at 200; the cursor-less
mode returns the room's 100 most recent messages, in ascending order
(the underlying fetch is descending-then-reversed). -/
theorem query_modes_contract (tr : List Event) (floor room t : String)
    (h : clockMono floor tr = true) :
    getMessagesSince (run initState tr) room t =
      ((run initState tr).messages.filter
        (fun m => m.room == room && strLt t m.timestamp)).take 200 ∧
    getAllMessagesAsc (run initState tr) room =
      ((run initState tr).messages.filter (fun m => m.room == room)).drop
        (((run initState tr).messages.filter (fun m => m.room == room)).length - 100) ∧
    List.Chain' (fun a b : Msg => strLe a.timestamp b.timestamp = true)
      (getMessagesSince (run initState tr) room t) ∧
    List.Chain' (fun a b : Msg => strLe a.timestamp b.timestamp = true)
      (getAllMessagesAsc (run initState tr) room) := by
  obtain ⟨f2, hinv⟩ := run_inv tr initState floor (storeInv_init floor) h
  have hsort := hinv.2.2.1
  refine ⟨getMessagesSince_eq_take _ _ _ hsort,
          getAllMessagesAsc_eq_drop _ _ hsort, ?_, ?_⟩
  · rw [getMessagesSince_eq_take _ _ _ hsort]
    exact chainTs_sublist (List.take_sublist _ _) (chainTs_filter hsort _)
  · rw [getAllMessagesAsc_eq_drop _ _ hsort]
    exact chainTs_sublist (List.drop_sublist _ _) (chainTs_filter hsort _)

/-- Witness for C6 on a concrete reachable store. -/
theorem query_modes_contract_witness :
    getMessagesSince (run initState trC4) "general" "2026-01-15 09:00:00" =
      ((run initState trC4).messages.filter
        (fun m => m.room == "general" && strLt "2026-01-15 09:00:00" m.timestamp)).take 200 ∧
    getAllMessagesAsc (run initState trC4) "general" =
      ((run initState trC4).messages.filter (fun m => m.room == "general")).drop
        (((run initState trC4).messages.filter (fun m => m.room == "general")).length - 100) ∧
    List.Chain' (fun a b : Msg => strLe a.timestamp b.timestamp = true)
      (getMessagesSince (run initState trC4) "general" "2026-01-15 09:00:00") ∧
    List.Chain' (fun a b : Msg => strLe a.timestamp b.timestamp = true)
      (getAllMessagesAsc (run initState trC4) "general") :=
  query_modes_contract trC4 (sqliteDatetime dtA) "general" "2026-01-15 09:00:00" (by decide)

set_option maxRecDepth 40000 in
set_option maxHeartbeats 4000000 in
/-- C3 counterexample: 250 messages appended in the same wall-clock
second (one reachable clock-monotone run) share one timestamp; the
first drain round returns 200 of them and advances the cursor to that
shared timestamp, so every later round is empty — the drain stalls at
200 of the 250 messages no matter how often it re-polls. -/
theorem drain_cap_loses_messages :
    clockMono (sqliteDatetime dtA) trC3 = true ∧
    (run initState trC3).messages.length = 250 ∧
    (drain (run initState trC3) "general" 5 (sqliteDatetime dtA)).length = 200 := by
  refine ⟨by decide, by decide, by decide⟩

/-- C3 (amended): when the 250 messages of a room carry strictly
increasing timestamps (distinct clock seconds), draining with the
cursor advanced to the maximum returned timestamp each round returns
exactly those 250 pairwise-distinct messages — no duplicates, no gaps
— within two rounds. -/
theorem drain_complete_strict (st : ServerState) (room t0 : String)
    (hsort : List.Chain' (fun a b : Msg => strLe a.timestamp b.timestamp = true)
      st.messages)
    (hstrict : List.Chain' (fun a b : Msg => strLt a.timestamp b.timestamp = true)
      (st.messages.filter (fun m => m.room == room)))
    (hall : ∀ m ∈ st.messages.filter (fun m => m.room == room),
      strLt t0 m.timestamp = true)
    (hlen : (st.messages.filter (fun m => m.room == room)).length = 250) :
    drain st room 2 t0 = st.messages.filter (fun m => m.room == room) ∧
    (st.messages.filter (fun m => m.room == room)).Nodup := by
  haveI : IsTrans Msg (fun a b : Msg => strLt a.timestamp b.timestamp = true) :=
    ⟨fun a b c => strLt_trans⟩
  have hstrictP := (List.chain'_iff_pairwise).1 hstrict
  have hfit : (st.messages.filter (fun m => m.room == room)).filter
      (fun m => strLt t0 m.timestamp) = st.messages.filter (fun m => m.room == room) :=
    List.filter_eq_self.2 hall
  constructor
  · rw [drain_collects st room hsort hstrictP 2 t0 (by rw [hfit, hlen]; omega), hfit]
  · refine hstrictP.imp ?_
    intro a b hab heq
    rw [heq] at hab
    exact absurd hab (by simp [strLt_irrefl])

set_option maxRecDepth 40000 in
set_option maxHeartbeats 4000000 in
/-- Witness for C3's amended theorem: a concrete store of 250
one-per-second messages drains completely in two rounds. -/
theorem drain_complete_strict_witness :
    drain stC3 "general" 2 "2026-01-15 09:59:59" =
      stC3.messages.filter (fun m => m.room == "general") ∧
    (stC3.messages.filter (fun m => m.room == "general")).Nodup :=
  drain_complete_strict stC3 "general" "2026-01-15 09:59:59"
    (chainB_sound (by decide)) (chainB_sound (by decide)) (by decide) (by decide)
